import Mathlib

/-!
# Verification of the cloudget chunked download engine

Shallow embedding of the Go sources of `milindmadhukar/cloudget`:

* `pkg/utils/http.go` — chunk planner (`calculateChunks`), range fetcher
  (`DownloadChunk`) and the sequential chunked writer (`downloadChunked`);
* `pkg/downloader/manager.go` — the download engine (`Manager.Download`,
  `checkExistingFile`, `Resume`);
* the resume store (`ResumeManager`: `SaveProgress`, `LoadProgress`,
  `IsResumable`, `getResumeFilename`).

Go `int64` values are embedded as unbounded `Int` (file sizes and byte
offsets stay far below 2^63, so two's-complement wrap-around never
triggers on the modelled domain).  Byte strings are `List Nat`, the file
on disk is a partial map `Nat → Option Nat` from offset to byte, and
wall-clock quantities (durations, measured speeds) enter the model as
oracle inputs.  Fallible Go functions returning `(T, error)` become
`Except String T`, with the error strings built by the same
concatenations as the source's `fmt.Errorf` calls.
-/

deriving instance DecidableEq for Except

namespace Cloudget

/-- `ChunkInfo` from `pkg/utils/http.go`: inclusive byte range
`[Start, End]` with `Size = End - Start + 1`. -/
structure ChunkInfo where
  Start : Int
  End : Int
  Size : Int
  deriving DecidableEq, Repr

/-- The loop body of `calculateChunks`: `for start := 0; start < totalSize;
start += chunkSize`.  The loop is embedded structurally with an explicit
iteration bound `fuel`; for `chunkSize ≥ 1` the bound `totalSize.toNat`
always suffices (each iteration advances `start` by at least one). -/
def calculateChunksGo (totalSize chunkSize : Int) : Nat → Int → List ChunkInfo
  | 0, _ => []
  | fuel + 1, start =>
    if start < totalSize then
      let e0 := start + chunkSize - 1
      let e := if e0 ≥ totalSize then totalSize - 1 else e0
      { Start := start, End := e, Size := e - start + 1 } ::
        calculateChunksGo totalSize chunkSize fuel (start + chunkSize)
    else []

/-- `calculateChunks` from `pkg/utils/http.go` lines 259–276. -/
def calculateChunks (totalSize chunkSize : Int) : List ChunkInfo :=
  calculateChunksGo totalSize chunkSize totalSize.toNat 0

/-- Sum of the `Size` fields of a chunk list (the quantity the spec's
invariant `sum(chunk.size) == totalSize` talks about). -/
def sumSizes (chunks : List ChunkInfo) : Int :=
  (chunks.map ChunkInfo.Size).sum

/-! ## The chunked writer (`downloadChunked`, `pkg/utils/http.go` 222–257) -/

/-- A file on disk as a partial map from byte offset to byte value;
`none` marks an offset never written.  `os.Create` truncates, so the
transfer starts from the empty file. -/
def emptyFile : Nat → Option Nat := fun _ => none

/-- `file.WriteAt(data, off)`: positioned write of `data` at the absolute
byte offset `off`, leaving every other offset unchanged. -/
def writeAt (file : Nat → Option Nat) (data : List Nat) (off : Nat) :
    Nat → Option Nat :=
  fun i =>
    if off ≤ i ∧ i < off + data.length then data[i - off]? else file i

/-- The loop of `downloadChunked`: chunks are fetched in order; a fetch
error aborts the transfer (wrapped with the chunk's range, as
`fmt.Errorf("failed to download chunk %d-%d: %w", ...)` does), and a
successful fetch is written at the absolute offset `chunk.Start` via
`file.WriteAt`.  The network is an oracle `fetch` standing for
`HTTPClient.DownloadChunk`. -/
def downloadChunkedGo (fetch : ChunkInfo → Except String (List Nat)) :
    List ChunkInfo → (Nat → Option Nat) → Except String (Nat → Option Nat)
  | [], file => .ok file
  | chunk :: rest, file =>
    match fetch chunk with
    | .error e =>
        .error ("failed to download chunk " ++ toString chunk.Start ++ "-"
          ++ toString chunk.End ++ ": " ++ e)
    | .ok data =>
        downloadChunkedGo fetch rest (writeAt file data chunk.Start.toNat)

/-- `downloadChunked` from `pkg/utils/http.go`: plan the chunks with
`calculateChunks`, then fetch and write them sequentially starting from
the freshly created (empty) file. -/
def downloadChunked (fetch : ChunkInfo → Except String (List Nat))
    (totalSize chunkSize : Int) : Except String (Nat → Option Nat) :=
  downloadChunkedGo fetch (calculateChunks totalSize chunkSize) emptyFile

/-- The bytes a correct server returns for one chunk request: the slice
of the remote content covering `[Start, Start + Size)`. -/
def remoteSlice (remote : List Nat) (ch : ChunkInfo) : List Nat :=
  (remote.drop ch.Start.toNat).take ch.Size.toNat

/-- Reading one byte out of a finished transfer; `none` on a failed
transfer or an unwritten offset. -/
def fileByte (r : Except String (Nat → Option Nat)) (i : Nat) : Option Nat :=
  match r with
  | .ok f => f i
  | .error _ => none

/-- The fetch oracle of the spec's end-to-end scenario: a well-behaved
server holding a 103-byte resource (bytes `0, 1, …, 102`). -/
def fetch103 : ChunkInfo → Except String (List Nat) :=
  fun ch => .ok (remoteSlice (List.range 103) ch)

/-! ## The range fetcher (`DownloadChunk`, `pkg/utils/http.go` 117–172) -/

/-- What `req.Get` produces on one attempt: a transport error, or a
response with a status code and a body. -/
inductive NetOutcome where
  | reqError (msg : String)
  | resp (status : Nat) (body : List Nat)
  deriving DecidableEq, Repr

/-- The network/context oracle for one `DownloadChunk` call: `net n` is
the outcome of the request on attempt `n`; `cancelDuringDelay n` says
whether `ctx.Done()` fires while the retry delay before attempt `n`
(`n ≥ 1`) is pending. -/
structure ChunkEnv where
  cancelDuringDelay : Nat → Bool
  net : Nat → NetOutcome

/-- The `DownloadOptions` fields `DownloadChunk` reads. -/
structure DownloadOptions where
  MaxRetries : Int
  RetryDelay : Int
  deriving DecidableEq, Repr

/-- Effective retry count: `maxRetries := 3`, overridden only when
`options != nil && options.MaxRetries > 0`. -/
def effectiveMaxRetries (options : Option DownloadOptions) : Nat :=
  match options with
  | some o => if o.MaxRetries > 0 then o.MaxRetries.toNat else 3
  | none => 3

/-- The retry loop of `DownloadChunk`: `attempt` is the Go loop counter,
`remaining` the iterations still allowed (`maxRetries + 1 - attempt`),
`lastErr` the Go `lastErr` variable.  Before every attempt but the first
the pending delay is interruptible by cancellation (`select` on
`ctx.Done()` / `time.After`); a response is accepted only with status
206 or 200 and a body of exactly `chunk.Size` bytes; exhausting the
budget surfaces the last error wrapped with the total attempt count. -/
def downloadChunkLoop (env : ChunkEnv) (chunk : ChunkInfo)
    (maxRetries : Nat) : Nat → Nat → Option String → Except String (List Nat)
  | _, 0, lastErr =>
      .error ("failed to download chunk after " ++ toString (maxRetries + 1)
        ++ " attempts: " ++ lastErr.getD "")
  | attempt, remaining + 1, _ =>
      if attempt > 0 ∧ env.cancelDuringDelay attempt = true then
        .error "context canceled"
      else
        match env.net attempt with
        | .reqError msg =>
            downloadChunkLoop env chunk maxRetries (attempt + 1) remaining
              (some ("HTTP request failed: " ++ msg))
        | .resp status body =>
            if status ≠ 206 ∧ status ≠ 200 then
              downloadChunkLoop env chunk maxRetries (attempt + 1) remaining
                (some ("unexpected status code: " ++ toString status))
            else if (body.length : Int) ≠ chunk.Size then
              downloadChunkLoop env chunk maxRetries (attempt + 1) remaining
                (some ("received " ++ toString body.length
                  ++ " bytes, expected " ++ toString chunk.Size ++ " bytes"))
            else .ok body

/-- `HTTPClient.DownloadChunk`: run the retry loop with the effective
retry budget, starting at attempt 0 with no recorded error. -/
def DownloadChunk (env : ChunkEnv) (chunk : ChunkInfo)
    (options : Option DownloadOptions) : Except String (List Nat) :=
  let maxRetries := effectiveMaxRetries options
  downloadChunkLoop env chunk maxRetries 0 (maxRetries + 1) none

/-- The error message one request outcome produces, `none` on success
(mirrors the three `lastErr` assignments in the loop body). -/
def netFailMsg (chunk : ChunkInfo) : NetOutcome → Option String
  | .reqError msg => some ("HTTP request failed: " ++ msg)
  | .resp status body =>
      if status ≠ 206 ∧ status ≠ 200 then
        some ("unexpected status code: " ++ toString status)
      else if (body.length : Int) ≠ chunk.Size then
        some ("received " ++ toString body.length
          ++ " bytes, expected " ++ toString chunk.Size ++ " bytes")
      else none

/-- The error message attempt `a` produces, `none` if attempt `a`
succeeds. -/
def attemptFailMsg (env : ChunkEnv) (chunk : ChunkInfo) (a : Nat) :
    Option String :=
  netFailMsg chunk (env.net a)

/-- An environment where every attempt gets an HTTP 500 response. -/
def env500 : ChunkEnv :=
  { cancelDuringDelay := fun _ => false, net := fun _ => .resp 500 [] }

/-! ## The resume store (`ResumeManager`, resume.go) -/

/-- `interfaces.ResumeData`; `LastModified` is the record's timestamp in
unix nanoseconds (`time.Time` ordering becomes `Int` ordering). -/
structure ResumeData where
  URL : String
  FilePath : String
  TotalSize : Int
  Downloaded : Int
  ChunkSize : Int
  LastModified : Int
  Hash : String
  deriving DecidableEq, Repr

/-- Contents of one file in the resume directory: a record that
`json.Unmarshal` accepts, or bytes that make `os.ReadFile` or
`json.Unmarshal` fail. -/
inductive ResumeFileContent where
  | valid (r : ResumeData)
  | corrupt
  deriving DecidableEq, Repr

/-- The resume directory as a map from file name to file content. -/
def ResumeDir := String → Option ResumeFileContent

/-- One character of `getResumeFilename`'s sanitisation: ASCII letters
and digits are kept, everything else becomes an underscore. -/
def sanitizeRune (r : Char) : Char :=
  if ('a' ≤ r ∧ r ≤ 'z') ∨ ('A' ≤ r ∧ r ≤ 'Z') ∨ ('0' ≤ r ∧ r ≤ '9') then r
  else '_'

/-- `getResumeFilename`: `resume_<prefix>.json` where `<prefix>` is the
URL's first 20 runes sanitised (the Go loop breaks at byte index 20; on
ASCII URLs that is the first 20 characters). -/
def getResumeFilename (url : String) : String :=
  "resume_" ++ String.mk ((url.toList.take 20).map sanitizeRune) ++ ".json"

/-- `SaveProgress`: marshal the record and write it under the name
derived from the URL (`os.WriteFile` replaces any previous content). -/
def SaveProgress (dir : ResumeDir) (url : String) (progress : ResumeData) :
    ResumeDir :=
  fun f => if f = getResumeFilename url then some (.valid progress) else dir f

/-- `LoadProgress`: a missing file is `ok none` (absent, not an error);
an unreadable or corrupt file is an error; otherwise the unmarshalled
record. -/
def LoadProgress (dir : ResumeDir) (url : String) :
    Except String (Option ResumeData) :=
  match dir (getResumeFilename url) with
  | none => .ok none
  | some .corrupt => .error "failed to unmarshal resume data"
  | some (.valid r) => .ok (some r)

/-- `os.Stat` on the output path: missing file, stat failure, or a file
with a size and a modification time (unix nanoseconds). -/
inductive StatResult where
  | absent
  | ioError
  | present (size modTime : Int)
  deriving DecidableEq, Repr

/-- The observable filesystem: `os.Stat` per path. -/
def FileSystem := String → StatResult

/-- `ResumeManager.IsResumable` (resume.go 87–121): load the record,
check the stored path, stat the output file, compare its size with the
recorded `Downloaded` count and its modification time with the record's
timestamp. -/
def IsResumable (dir : ResumeDir) (fs : FileSystem) (url outputPath : String) :
    Except String (Bool × Option ResumeData) :=
  match LoadProgress dir url with
  | .error e => .error e
  | .ok none => .ok (false, none)
  | .ok (some progress) =>
    if progress.FilePath ≠ outputPath then .ok (false, none)
    else
      match fs outputPath with
      | .absent => .ok (false, none)
      | .ioError => .error "failed to stat output file"
      | .present size modTime =>
        if size ≠ progress.Downloaded then .ok (false, none)
        else if modTime > progress.LastModified then .ok (false, none)
        else .ok (true, some progress)

/-- A sample record for concrete evaluations. -/
def sampleRecord : ResumeData :=
  { URL := "http://example.com/f", FilePath := "/tmp/out.bin",
    TotalSize := 1000, Downloaded := 500, ChunkSize := 256,
    LastModified := 111, Hash := "" }

/-- The empty resume directory. -/
def emptyResumeDir : ResumeDir := fun _ => none

/-- A resume directory whose record for `http://example.com/f` exists
but does not unmarshal. -/
def corruptDir : ResumeDir :=
  fun f => if f = getResumeFilename "http://example.com/f" then some .corrupt
    else none

/-- A resume directory holding a valid record for `http://example.com/f`. -/
def goodDir : ResumeDir :=
  fun f => if f = getResumeFilename "http://example.com/f"
    then some (.valid sampleRecord) else none

/-- A filesystem where `/tmp/out.bin` exists with size 500, modified at
time 100. -/
def goodFs : FileSystem :=
  fun p => if p = "/tmp/out.bin" then .present 500 100 else .absent

/-! ## The download engine (`Manager.Download`, `pkg/downloader/manager.go`) -/

/-- The `ManagerOptions` fields `Download` reads. -/
structure ManagerOptions where
  MaxConnections : Int
  ChunkSize : Int
  OutputDir : String
  Resume : Bool
  VerifyHash : Bool
  HashAlgorithm : String
  deriving DecidableEq, Repr

/-- The `interfaces.DownloadRequest` fields `Download` reads after the
output path has been determined. -/
structure DownloadRequest where
  URL : String
  OutputPath : String
  CustomFilename : String
  VerifyHash : String
  deriving DecidableEq, Repr

/-- `interfaces.DownloadResult`.  `Speed` is a float64 (MB/s) in Go; it
is exactly `0` on the short-circuit path and otherwise a wall-clock
measurement, modelled as a rational oracle value.  `Duration` (pure wall
clock) is omitted. -/
structure DownloadResult where
  FilePath : String
  Size : Int
  Speed : Rat
  Hash : String
  Resumed : Bool
  ChunksUsed : Int
  deriving DecidableEq, Repr

/-- Everything one `Manager.Download` run observes from outside between
determining the output path and returning: the probed `fileInfo.Size`,
the `os.Stat` of the output path before the transfer (`none` when the
file is missing or stat fails, both of which `checkExistingFile` treats
alike), the outcome of `HTTPClient.DownloadToFile` — `ok` carrying the
size `os.Stat` reports on the finished file — the hash the
`HashCalculator` computes over it, and the measured transfer speed. -/
structure DlEnv where
  probedSize : Int
  statBefore : Option Int
  transfer : Except String Int
  computedHash : Except String String
  measuredSpeed : Rat

/-- `checkExistingFile` (`manager.go` 259–276): `(0, false)` when the
file is missing (or stat fails), `(size, true)` on an exact size match,
`(size, false)` otherwise. -/
def checkExistingFile (statBefore : Option Int) (expectedSize : Int) :
    Int × Bool :=
  match statBefore with
  | none => (0, false)
  | some actualSize =>
      if actualSize = expectedSize then (actualSize, true)
      else (actualSize, false)

/-- What a `Manager.Download` run did: whether `DownloadToFile` was
invoked (a network transfer), whether the partial output file was
removed, and the returned result or error. -/
structure DlOutcome where
  transferAttempted : Bool
  partialDeleted : Bool
  result : Except String DownloadResult

/-- `strings.EqualFold` restricted to ASCII: case-insensitive string
equality, character by character. -/
def eqFold (a b : String) : Bool :=
  a.toList.map Char.toLower == b.toList.map Char.toLower

/-- The verification stage of `Manager.Download` (`manager.go` 187–203
and the final return 214–222): hash verification runs only when
`m.options.VerifyHash && req.VerifyHash != ""`; the computed hash is
compared with `strings.EqualFold`; on mismatch the error is returned and
the file is NOT deleted; on success the result carries the computed
hash, `Resumed = false` and `ChunksUsed = 0`. -/
def verifyStage (opts : ManagerOptions) (req : DownloadRequest)
    (outputPath : String) (env : DlEnv) : DlOutcome :=
  if opts.VerifyHash ∧ req.VerifyHash ≠ "" then
    match env.computedHash with
    | .error e =>
        { transferAttempted := true, partialDeleted := false,
          result := .error ("failed to calculate hash: " ++ e) }
    | .ok calculatedHash =>
        if eqFold calculatedHash req.VerifyHash then
          { transferAttempted := true, partialDeleted := false,
            result := .ok
              { FilePath := outputPath, Size := env.probedSize,
                Speed := env.measuredSpeed, Hash := calculatedHash,
                Resumed := false, ChunksUsed := 0 } }
        else
          { transferAttempted := true, partialDeleted := false,
            result := .error ("hash verification failed: expected "
              ++ req.VerifyHash ++ ", got " ++ calculatedHash) }
  else
    { transferAttempted := true, partialDeleted := false,
      result := .ok
        { FilePath := outputPath, Size := env.probedSize,
          Speed := env.measuredSpeed, Hash := "", Resumed := false,
          ChunksUsed := 0 } }

/-- The post-transfer stage of `Manager.Download` (`manager.go`
177–185): the on-disk size must equal the probed size exactly, then the
verification stage runs. -/
def afterTransferStage (opts : ManagerOptions) (req : DownloadRequest)
    (outputPath : String) (env : DlEnv) (finalSize : Int) : DlOutcome :=
  if finalSize ≠ env.probedSize then
    { transferAttempted := true, partialDeleted := false,
      result := .error ("file size mismatch: expected "
        ++ toString env.probedSize ++ ", got " ++ toString finalSize) }
  else verifyStage opts req outputPath env

/-- `Manager.Download` (`manager.go` 102–223) after the probe and the
output-path determination: the existing-file short-circuit (guarded by
the `Resume` option), the transfer with partial-file cleanup on error,
then the post-transfer stage. -/
def ManagerDownload (opts : ManagerOptions) (req : DownloadRequest)
    (outputPath : String) (env : DlEnv) : DlOutcome :=
  if opts.Resume ∧ (checkExistingFile env.statBefore env.probedSize).2 then
    { transferAttempted := false, partialDeleted := false,
      result := .ok
        { FilePath := outputPath,
          Size := (checkExistingFile env.statBefore env.probedSize).1,
          Speed := 0, Hash := "", Resumed := false, ChunksUsed := 0 } }
  else
    match env.transfer with
    | .error e =>
        { transferAttempted := true, partialDeleted := true,
          result := .error ("download failed: " ++ e) }
    | .ok finalSize => afterTransferStage opts req outputPath env finalSize

/-- `Manager.Resume` (`manager.go` 278–282): logs a warning and performs
a full `Download`; no saved resume state is consulted. -/
def ManagerResume (opts : ManagerOptions) (req : DownloadRequest)
    (outputPath : String) (env : DlEnv) : DlOutcome :=
  ManagerDownload opts req outputPath env

/-- The default configuration built by `NewManager(nil)`
(`manager.go` 36–47): `Resume` is on, hash verification off. -/
def defaultOptions : ManagerOptions :=
  { MaxConnections := 8, ChunkSize := 2 * 1024 * 1024, OutputDir := ".",
    Resume := true, VerifyHash := false, HashAlgorithm := "sha256" }

/-- A manager configured with `Resume` disabled. -/
def optsNoResume : ManagerOptions :=
  { MaxConnections := 8, ChunkSize := 2 * 1024 * 1024, OutputDir := ".",
    Resume := false, VerifyHash := false, HashAlgorithm := "sha256" }

/-- A plain request with no explicit hash. -/
def reqPlain : DownloadRequest :=
  { URL := "http://example.com/f", OutputPath := "", CustomFilename := "",
    VerifyHash := "" }

/-- An environment where the output file already exists with exactly the
probed size, and a transfer (if run) would succeed at measured speed 5. -/
def envExisting : DlEnv :=
  { probedSize := 100, statBefore := some 100, transfer := .ok 100,
    computedHash := .ok "", measuredSpeed := 5 }

/-- A verification-enabled configuration and a request expecting the
hash `abcDEF` (deliberately differing in case from the computed one). -/
def optsVerify : ManagerOptions := { defaultOptions with VerifyHash := true }

/-- The matching-hash request. -/
def reqHash : DownloadRequest := { reqPlain with VerifyHash := "abcDEF" }

/-- An environment whose hasher computes `ABCdef` over the finished
100-byte file. -/
def envHash : DlEnv :=
  { probedSize := 100, statBefore := none, transfer := .ok 100,
    computedHash := .ok "ABCdef", measuredSpeed := 5 }

/-- An environment where the finished file is 97 bytes although the
probe announced 100. -/
def envShort : DlEnv :=
  { probedSize := 100, statBefore := none, transfer := .ok 97,
    computedHash := .ok "", measuredSpeed := 5 }

lemma calculateChunksGo_nil (t c : Int) (fuel : Nat) (s : Int) (hts : t ≤ s) :
    calculateChunksGo t c fuel s = [] := by
  cases fuel with
  | zero => rfl
  | succ fuel => simp only [calculateChunksGo, if_neg (not_lt.mpr hts)]

lemma calculateChunksGo_cons (t c : Int) (fuel : Nat) (s : Int)
    (hf : (t - s).toNat ≤ fuel) (hst : s < t) :
    calculateChunksGo t c fuel s =
      { Start := s, End := if s + c - 1 ≥ t then t - 1 else s + c - 1,
        Size := (if s + c - 1 ≥ t then t - 1 else s + c - 1) - s + 1 } ::
      calculateChunksGo t c (fuel - 1) (s + c) := by
  cases fuel with
  | zero => omega
  | succ fuel => simp only [calculateChunksGo, if_pos hst, Nat.succ_sub_one]

lemma calculateChunksGo_sum (t c : Int) (hc : 0 < c) (fuel : Nat) (s : Int)
    (hf : (t - s).toNat ≤ fuel) :
    sumSizes (calculateChunksGo t c fuel s) = ((t - s).toNat : Int) := by
  induction fuel generalizing s with
  | zero =>
    rw [calculateChunksGo]
    simp only [sumSizes, List.map_nil, List.sum_nil]
    omega
  | succ fuel ih =>
    by_cases hst : s < t
    · rw [calculateChunksGo_cons t c (fuel + 1) s hf hst, Nat.succ_sub_one]
      have htail := ih (s + c) (by omega)
      simp only [sumSizes, List.map_cons, List.sum_cons] at htail ⊢
      rw [htail]
      split <;> omega
    · rw [calculateChunksGo_nil t c _ s (by omega)]
      simp only [sumSizes, List.map_nil, List.sum_nil]
      omega

lemma ceil_div_step (n cn : Nat) (hn : 1 ≤ n) (hcn : 1 ≤ cn) :
    (n + cn - 1) / cn = (n - cn + cn - 1) / cn + 1 := by
  rcases le_or_lt n cn with h | h
  · have h1 : n + cn - 1 = (n - 1) + cn := by omega
    have h2 : n - cn + cn - 1 = cn - 1 := by omega
    rw [h1, Nat.add_div_right _ (by omega), h2,
      Nat.div_eq_of_lt (by omega), Nat.div_eq_of_lt (by omega)]
  · have h1 : n + cn - 1 = ((n - cn) + cn - 1) + cn := by omega
    rw [h1, Nat.add_div_right _ (by omega)]

lemma calculateChunksGo_length (t c : Int) (hc : 0 < c) (fuel : Nat) (s : Int)
    (hf : (t - s).toNat ≤ fuel) :
    (calculateChunksGo t c fuel s).length
      = ((t - s).toNat + c.toNat - 1) / c.toNat := by
  induction fuel generalizing s with
  | zero =>
    rw [calculateChunksGo]
    have h0 : (t - s).toNat = 0 := by omega
    rw [h0]
    simp only [List.length_nil]
    rw [Nat.div_eq_of_lt (by omega)]
  | succ fuel ih =>
    by_cases hst : s < t
    · rw [calculateChunksGo_cons t c (fuel + 1) s hf hst, Nat.succ_sub_one]
      rw [List.length_cons, ih (s + c) (by omega)]
      have he : (t - (s + c)).toNat = (t - s).toNat - c.toNat := by omega
      rw [he]
      exact (ceil_div_step _ _ (by omega) (by omega)).symm
    · rw [calculateChunksGo_nil t c _ s (by omega)]
      have h0 : (t - s).toNat = 0 := by omega
      rw [h0]
      simp only [List.length_nil]
      rw [Nat.div_eq_of_lt (by omega)]

lemma calculateChunksGo_chain (t c : Int) (hc : 0 < c) (fuel : Nat) (s : Int)
    (hf : (t - s).toNat ≤ fuel) :
    List.Chain' (fun a b => a.End + 1 = b.Start ∧ a.Start < b.Start)
      (calculateChunksGo t c fuel s) := by
  induction fuel generalizing s with
  | zero =>
    rw [calculateChunksGo]
    exact List.chain'_nil
  | succ fuel ih =>
    by_cases hst : s < t
    · rw [calculateChunksGo_cons t c (fuel + 1) s hf hst, Nat.succ_sub_one]
      rw [List.chain'_cons']
      refine ⟨?_, ih (s + c) (by omega)⟩
      intro b hb
      by_cases hsc : s + c < t
      · rw [calculateChunksGo_cons t c fuel (s + c) (by omega) hsc] at hb
        simp only [List.head?_cons, Option.mem_def, Option.some.injEq] at hb
        subst hb
        have hlt : ¬ (s + c - 1 ≥ t) := by omega
        simp only [if_neg hlt]
        constructor <;> omega
      · rw [calculateChunksGo_nil t c fuel (s + c) (by omega)] at hb
        simp at hb
    · rw [calculateChunksGo_nil t c _ s (by omega)]
      exact List.chain'_nil

lemma calculateChunksGo_mem (t c : Int) (hc : 0 < c) (fuel : Nat) (s : Int)
    (hf : (t - s).toNat ≤ fuel) :
    ∀ ch ∈ calculateChunksGo t c fuel s,
      s ≤ ch.Start ∧ ch.Start ≤ ch.End ∧ ch.End ≤ t - 1 ∧
      ch.Size = ch.End - ch.Start + 1 ∧ 0 < ch.Size ∧ ch.Size ≤ c := by
  induction fuel generalizing s with
  | zero =>
    rw [calculateChunksGo]
    intro ch hch
    simp at hch
  | succ fuel ih =>
    by_cases hst : s < t
    · rw [calculateChunksGo_cons t c (fuel + 1) s hf hst, Nat.succ_sub_one]
      intro ch hch
      rcases List.mem_cons.mp hch with hch | hch
      · subst hch
        show s ≤ s ∧
          s ≤ (if s + c - 1 ≥ t then t - 1 else s + c - 1) ∧
          (if s + c - 1 ≥ t then t - 1 else s + c - 1) ≤ t - 1 ∧
          (if s + c - 1 ≥ t then t - 1 else s + c - 1) - s + 1
            = (if s + c - 1 ≥ t then t - 1 else s + c - 1) - s + 1 ∧
          0 < (if s + c - 1 ≥ t then t - 1 else s + c - 1) - s + 1 ∧
          (if s + c - 1 ≥ t then t - 1 else s + c - 1) - s + 1 ≤ c
        split <;>
          exact ⟨by omega, by omega, by omega, rfl, by omega, by omega⟩
      · have := ih (s + c) (by omega) ch hch
        refine ⟨by omega, this.2⟩
    · rw [calculateChunksGo_nil t c _ s (by omega)]
      intro ch hch
      simp at hch

lemma calculateChunksGo_dropLast (t c : Int) (hc : 0 < c) (fuel : Nat) (s : Int)
    (hf : (t - s).toNat ≤ fuel) :
    ∀ ch ∈ (calculateChunksGo t c fuel s).dropLast, ch.Size = c := by
  induction fuel generalizing s with
  | zero =>
    rw [calculateChunksGo]
    intro ch hch
    simp at hch
  | succ fuel ih =>
    by_cases hst : s < t
    · rw [calculateChunksGo_cons t c (fuel + 1) s hf hst, Nat.succ_sub_one]
      by_cases hsc : s + c < t
      · rw [calculateChunksGo_cons t c fuel (s + c) (by omega) hsc]
        intro ch hch
        rw [List.dropLast_cons₂] at hch
        rcases List.mem_cons.mp hch with hch | hch
        · subst hch
          have hlt : ¬ (s + c - 1 ≥ t) := by omega
          simp only [if_neg hlt]
          omega
        · have := ih (s + c) (by omega) ch
          rw [calculateChunksGo_cons t c fuel (s + c) (by omega) hsc] at this
          exact this hch
      · rw [calculateChunksGo_nil t c fuel (s + c) (by omega)]
        intro ch hch
        simp at hch
    · rw [calculateChunksGo_nil t c _ s (by omega)]
      intro ch hch
      simp at hch

lemma calculateChunksGo_getLast (t c : Int) (hc : 0 < c) (fuel : Nat) (s : Int)
    (hf : (t - s).toNat ≤ fuel) (hst : s < t) :
    ∃ ch, (calculateChunksGo t c fuel s).getLast? = some ch ∧ ch.End = t - 1 := by
  induction fuel generalizing s with
  | zero => omega
  | succ fuel ih =>
    rw [calculateChunksGo_cons t c (fuel + 1) s hf hst, Nat.succ_sub_one]
    by_cases hsc : s + c < t
    · obtain ⟨ch, hch, hend⟩ := ih (s + c) (by omega) hsc
      refine ⟨ch, ?_, hend⟩
      rw [calculateChunksGo_cons t c fuel (s + c) (by omega) hsc] at hch ⊢
      rw [List.getLast?_cons_cons]
      exact hch
    · rw [calculateChunksGo_nil t c fuel (s + c) (by omega)]
      refine ⟨_, rfl, ?_⟩
      show (if s + c - 1 ≥ t then t - 1 else s + c - 1) = t - 1
      split <;> omega

lemma calculateChunksGo_pairwise (t c : Int) (hc : 0 < c) (fuel : Nat)
    (s : Int) (hf : (t - s).toNat ≤ fuel) :
    List.Pairwise (fun a b => a.End < b.Start)
      (calculateChunksGo t c fuel s) := by
  induction fuel generalizing s with
  | zero =>
    rw [calculateChunksGo]
    exact List.Pairwise.nil
  | succ fuel ih =>
    by_cases hst : s < t
    · rw [calculateChunksGo_cons t c (fuel + 1) s hf hst, Nat.succ_sub_one]
      refine List.Pairwise.cons ?_ (ih (s + c) (by omega))
      intro b hb
      have hbm := calculateChunksGo_mem t c hc fuel (s + c) (by omega) b hb
      show (if s + c - 1 ≥ t then t - 1 else s + c - 1) < b.Start
      have hb1 := hbm.1
      split <;> omega
    · rw [calculateChunksGo_nil t c _ s (by omega)]
      exact List.Pairwise.nil

/-- C1: for every `totalSize` and every `chunkSize > 0`, `calculateChunks`
returns a sequence of chunks ordered by strictly increasing start, pairwise
non-overlapping and contiguous (each chunk starts right after the previous
one ends), whose sizes sum to `totalSize` (to `0` when `totalSize < 0`),
containing exactly `ceil(totalSize / chunkSize)` chunks, each of size
`chunkSize` except a possibly smaller (but positive) last chunk; the first
chunk starts at `0`, the last ends at `totalSize - 1`, and for every
`totalSize ≤ 0` the sequence is empty. -/
theorem calculateChunks_plan_spec (totalSize chunkSize : Int)
    (hc : 0 < chunkSize) :
    (totalSize ≤ 0 → calculateChunks totalSize chunkSize = []) ∧
    sumSizes (calculateChunks totalSize chunkSize) = max totalSize 0 ∧
    (calculateChunks totalSize chunkSize).length
      = (totalSize.toNat + chunkSize.toNat - 1) / chunkSize.toNat ∧
    List.Chain' (fun a b => a.End + 1 = b.Start ∧ a.Start < b.Start)
      (calculateChunks totalSize chunkSize) ∧
    List.Pairwise (fun a b => a.End < b.Start)
      (calculateChunks totalSize chunkSize) ∧
    (∀ ch ∈ calculateChunks totalSize chunkSize,
        0 ≤ ch.Start ∧ ch.Start ≤ ch.End ∧ ch.End ≤ totalSize - 1 ∧
        ch.Size = ch.End - ch.Start + 1 ∧ 0 < ch.Size ∧ ch.Size ≤ chunkSize) ∧
    (∀ ch ∈ (calculateChunks totalSize chunkSize).dropLast,
        ch.Size = chunkSize) ∧
    (0 < totalSize → ∃ ch rest,
        calculateChunks totalSize chunkSize = ch :: rest ∧ ch.Start = 0) ∧
    (0 < totalSize → ∃ ch,
        (calculateChunks totalSize chunkSize).getLast? = some ch ∧
        ch.End = totalSize - 1) := by
  have hf : (totalSize - 0).toNat ≤ totalSize.toNat := by omega
  refine ⟨?_, ?_, ?_, ?_, ?_, ?_, ?_, ?_, ?_⟩
  · intro h
    exact calculateChunksGo_nil totalSize chunkSize totalSize.toNat 0 (by omega)
  · rw [calculateChunks, calculateChunksGo_sum totalSize chunkSize hc _ 0 hf]
    omega
  · rw [calculateChunks,
      calculateChunksGo_length totalSize chunkSize hc _ 0 hf]
    congr 2
    omega
  · exact calculateChunksGo_chain totalSize chunkSize hc _ 0 hf
  · exact calculateChunksGo_pairwise totalSize chunkSize hc _ 0 hf
  · exact calculateChunksGo_mem totalSize chunkSize hc _ 0 hf
  · exact calculateChunksGo_dropLast totalSize chunkSize hc _ 0 hf
  · intro ht
    rw [calculateChunks, calculateChunksGo_cons totalSize chunkSize _ 0 hf ht]
    exact ⟨_, _, rfl, rfl⟩
  · intro ht
    exact calculateChunksGo_getLast totalSize chunkSize hc _ 0 hf ht

/-- C1 witness: the plan invariants evaluated at `totalSize = 103`,
`chunkSize = 25` — five chunks, sizes summing to `103`. -/
theorem calculateChunks_plan_spec_witness :
    (0 : Int) < 25 ∧
    sumSizes (calculateChunks 103 25) = max 103 0 ∧
    (calculateChunks 103 25).length = (103 + 25 - 1) / 25 := by
  have h := calculateChunks_plan_spec 103 25 (by decide)
  exact ⟨by decide, h.2.1, h.2.2.1⟩

lemma writeAt_remoteSlice (remote : List Nat) (t : Int)
    (hlen : remote.length = t.toNat) (s e : Int)
    (h0 : 0 ≤ s) (h1 : s ≤ e) (h2 : e ≤ t - 1)
    (file : Nat → Option Nat) (i : Nat) :
    writeAt file (remoteSlice remote ⟨s, e, e - s + 1⟩) s.toNat i =
      if s.toNat ≤ i ∧ i ≤ e.toNat then remote[i]? else file i := by
  have hsl : (remoteSlice remote ⟨s, e, e - s + 1⟩).length = (e - s + 1).toNat := by
    simp only [remoteSlice, List.length_take, List.length_drop]
    omega
  show (if s.toNat ≤ i ∧
        i < s.toNat + (remoteSlice remote ⟨s, e, e - s + 1⟩).length
      then (remoteSlice remote ⟨s, e, e - s + 1⟩)[i - s.toNat]? else file i) = _
  rw [hsl]
  by_cases hin : s.toNat ≤ i ∧ i < s.toNat + (e - s + 1).toNat
  · rw [if_pos hin, if_pos (by omega)]
    show ((remote.drop s.toNat).take (e - s + 1).toNat)[i - s.toNat]? = _
    rw [List.getElem?_take_of_lt (by omega), List.getElem?_drop]
    congr 1
    omega
  · rw [if_neg hin, if_neg (by omega)]

lemma downloadChunkedGo_writes (remote : List Nat) (t c : Int) (hc : 0 < c)
    (hlen : remote.length = t.toNat)
    (fetch : ChunkInfo → Except String (List Nat)) (fuel : Nat) :
    ∀ (s : Int), 0 ≤ s → (t - s).toNat ≤ fuel →
    (∀ ch ∈ calculateChunksGo t c fuel s,
        fetch ch = .ok (remoteSlice remote ch)) →
    ∀ file : Nat → Option Nat,
    ∃ file', downloadChunkedGo fetch (calculateChunksGo t c fuel s) file
        = .ok file' ∧
      ∀ i, file' i =
        if s.toNat ≤ i ∧ i < t.toNat then remote[i]? else file i := by
  induction fuel with
  | zero =>
    intro s hs hf _ file
    rw [calculateChunksGo]
    exact ⟨file, rfl, fun i => by rw [if_neg (by omega)]⟩
  | succ fuel ih =>
    intro s hs hf hfetch file
    by_cases hst : s < t
    · rw [calculateChunksGo_cons t c (fuel + 1) s hf hst, Nat.succ_sub_one]
        at hfetch ⊢
      set e : Int := if s + c - 1 ≥ t then t - 1 else s + c - 1 with hedef
      have he1 : s ≤ e := by rw [hedef]; split <;> omega
      have he2 : e ≤ t - 1 := by rw [hedef]; split <;> omega
      have hecase : e = t - 1 ∨ e = s + c - 1 := by
        rw [hedef]; split
        · exact Or.inl rfl
        · exact Or.inr rfl
      have hmem : fetch ⟨s, e, e - s + 1⟩
          = .ok (remoteSlice remote ⟨s, e, e - s + 1⟩) :=
        hfetch _ (List.mem_cons_self _ _)
      have htail : ∀ ch ∈ calculateChunksGo t c fuel (s + c),
          fetch ch = .ok (remoteSlice remote ch) :=
        fun ch h => hfetch ch (List.mem_cons_of_mem _ h)
      obtain ⟨file', heq, hpt⟩ := ih (s + c) (by omega) (by omega) htail
        (writeAt file (remoteSlice remote ⟨s, e, e - s + 1⟩) s.toNat)
      refine ⟨file', ?_, ?_⟩
      · simp only [downloadChunkedGo, hmem]
        exact heq
      · intro i
        have hw := writeAt_remoteSlice remote t hlen s e hs he1 he2 file i
        by_cases h0 : s.toNat ≤ i ∧ i < t.toNat
        · rw [if_pos h0]
          by_cases hA : (s + c).toNat ≤ i ∧ i < t.toNat
          · rw [hpt i, if_pos hA]
          · rw [hpt i, if_neg hA, hw, if_pos (by rcases hecase with he | he <;> omega)]
        · rw [if_neg h0, hpt i, if_neg (by omega), hw,
            if_neg (by rcases hecase with he | he <;> omega)]
    · rw [calculateChunksGo_nil t c _ s (by omega)] at hfetch ⊢
      exact ⟨file, rfl, fun i => by rw [if_neg (by omega)]⟩

/-- C2: when every chunk fetch succeeds and returns the remote bytes of
its range, `downloadChunked` writes each chunk's bytes at the absolute
offset `chunk.Start` (positioned write), and the finished file is
byte-for-byte the remote content — every offset below `totalSize` holds
the remote's byte and every offset past the end is untouched. -/
theorem downloadChunked_reassembles (totalSize chunkSize : Int)
    (remote : List Nat) (fetch : ChunkInfo → Except String (List Nat))
    (hc : 0 < chunkSize) (hlen : (remote.length : Int) = totalSize)
    (hfetch : ∀ ch ∈ calculateChunks totalSize chunkSize,
        fetch ch = .ok (remoteSlice remote ch)) :
    ∃ file, downloadChunked fetch totalSize chunkSize = .ok file ∧
      ∀ i, file i = remote[i]? := by
  obtain ⟨file, heq, hpt⟩ := downloadChunkedGo_writes remote totalSize chunkSize
    hc (by omega) fetch totalSize.toNat 0 le_rfl (by omega) hfetch emptyFile
  refine ⟨file, heq, fun i => ?_⟩
  rw [hpt i]
  by_cases h : (0 : Int).toNat ≤ i ∧ i < totalSize.toNat
  · rw [if_pos h]
  · rw [if_neg h]
    show (none : Option Nat) = remote[i]?
    exact (List.getElem?_eq_none (by omega)).symm

/-- C2 witness: the 103-byte resource with `chunkSize = 25` yields 5
chunks — four of size 25 and one of size 3 — and reassembly by offset
reproduces the content exactly (spot-checked at offsets 0, 52, 102, and
one past the end). -/
theorem downloadChunked_reassembles_witness :
    (calculateChunks 103 25).length = 5 ∧
    (calculateChunks 103 25).map ChunkInfo.Size = [25, 25, 25, 25, 3] ∧
    fileByte (downloadChunked fetch103 103 25) 0 = some 0 ∧
    fileByte (downloadChunked fetch103 103 25) 52 = some 52 ∧
    fileByte (downloadChunked fetch103 103 25) 102 = some 102 ∧
    fileByte (downloadChunked fetch103 103 25) 103 = none := by
  obtain ⟨file, heq, hpt⟩ := downloadChunked_reassembles 103 25
    (List.range 103) fetch103 (by decide) (by decide) (fun ch _ => rfl)
  refine ⟨by decide, by decide, ?_, ?_, ?_, ?_⟩ <;>
    simp only [fileByte, heq] <;> rw [hpt] <;> decide

lemma downloadChunkLoop_ok (env : ChunkEnv) (chunk : ChunkInfo) (m : Nat) :
    ∀ remaining attempt lastErr body,
      downloadChunkLoop env chunk m attempt remaining lastErr = .ok body →
      ∃ a status, attempt ≤ a ∧ a < attempt + remaining ∧
        env.net a = .resp status body ∧ (status = 200 ∨ status = 206) ∧
        (body.length : Int) = chunk.Size := by
  intro remaining
  induction remaining with
  | zero =>
    intro attempt lastErr body h
    exact Except.noConfusion h
  | succ remaining ih =>
    intro attempt lastErr body h
    rw [downloadChunkLoop] at h
    by_cases hcan : attempt > 0 ∧ env.cancelDuringDelay attempt = true
    · rw [if_pos hcan] at h
      exact Except.noConfusion h
    · rw [if_neg hcan] at h
      split at h
      next msg heq =>
        obtain ⟨a, st, h1, h2, h3, h4, h5⟩ := ih (attempt + 1) _ body h
        exact ⟨a, st, by omega, by omega, h3, h4, h5⟩
      next status body' heq =>
        by_cases hst : status ≠ 206 ∧ status ≠ 200
        · rw [if_pos hst] at h
          obtain ⟨a, st, h1, h2, h3, h4, h5⟩ := ih (attempt + 1) _ body h
          exact ⟨a, st, by omega, by omega, h3, h4, h5⟩
        · rw [if_neg hst] at h
          by_cases hlen : (body'.length : Int) ≠ chunk.Size
          · rw [if_pos hlen] at h
            obtain ⟨a, st, h1, h2, h3, h4, h5⟩ := ih (attempt + 1) _ body h
            exact ⟨a, st, by omega, by omega, h3, h4, h5⟩
          · rw [if_neg hlen] at h
            injection h with h
            subst h
            exact ⟨attempt, status, le_rfl, by omega, heq, by omega, by omega⟩

lemma downloadChunkLoop_exhaust (env : ChunkEnv) (chunk : ChunkInfo) (m : Nat) :
    ∀ r attempt lastErr,
      (∀ a, attempt ≤ a → a ≤ attempt + r →
        (a = 0 ∨ env.cancelDuringDelay a = false) ∧
          attemptFailMsg env chunk a ≠ none) →
      downloadChunkLoop env chunk m attempt (r + 1) lastErr =
        .error ("failed to download chunk after " ++ toString (m + 1)
          ++ " attempts: " ++ (attemptFailMsg env chunk (attempt + r)).getD "") := by
  intro r
  induction r with
  | zero =>
    intro attempt lastErr hfail
    obtain ⟨hcan, hmsg⟩ := hfail attempt le_rfl (by omega)
    rw [downloadChunkLoop, if_neg ?hc]
    case hc =>
      rintro ⟨hpos, htrue⟩
      rcases hcan with h | h
      · omega
      · rw [h] at htrue
        exact Bool.noConfusion htrue
    simp only [Nat.add_zero]
    rw [attemptFailMsg]
    split
    next msg heq =>
      rw [heq, netFailMsg]
      rfl
    next status body heq =>
      rw [heq, netFailMsg]
      by_cases hst : status ≠ 206 ∧ status ≠ 200
      · rw [if_pos hst, if_pos hst]
        rfl
      · rw [if_neg hst, if_neg hst]
        by_cases hlen : (body.length : Int) ≠ chunk.Size
        · rw [if_pos hlen, if_pos hlen]
          rfl
        · exfalso
          rw [attemptFailMsg, heq, netFailMsg, if_neg hst, if_neg hlen] at hmsg
          exact hmsg rfl
  | succ r ih =>
    intro attempt lastErr hfail
    obtain ⟨hcan, hmsg⟩ := hfail attempt le_rfl (by omega)
    rw [downloadChunkLoop, if_neg ?hc2]
    case hc2 =>
      rintro ⟨hpos, htrue⟩
      rcases hcan with h | h
      · omega
      · rw [h] at htrue
        exact Bool.noConfusion htrue
    have hnext : ∀ a, attempt + 1 ≤ a → a ≤ attempt + 1 + r →
        (a = 0 ∨ env.cancelDuringDelay a = false) ∧
          attemptFailMsg env chunk a ≠ none :=
      fun a ha hb => hfail a (by omega) (by omega)
    have hshift : attempt + 1 + r = attempt + (r + 1) := by omega
    split
    next msg heq =>
      rw [ih (attempt + 1) _ hnext, hshift]
    next status body heq =>
      by_cases hst : status ≠ 206 ∧ status ≠ 200
      · rw [if_pos hst, ih (attempt + 1) _ hnext, hshift]
      · rw [if_neg hst]
        by_cases hlen : (body.length : Int) ≠ chunk.Size
        · rw [if_pos hlen, ih (attempt + 1) _ hnext, hshift]
        · exfalso
          rw [attemptFailMsg, heq, netFailMsg, if_neg hst, if_neg hlen] at hmsg
          exact hmsg rfl

lemma downloadChunkLoop_cancel (env : ChunkEnv) (chunk : ChunkInfo) (m : Nat) :
    ∀ remaining attempt lastErr j,
      attempt ≤ j → j < attempt + remaining → 1 ≤ j →
      env.cancelDuringDelay j = true →
      (∀ a, attempt ≤ a → a < j →
        (a = 0 ∨ env.cancelDuringDelay a = false) ∧
          attemptFailMsg env chunk a ≠ none) →
      downloadChunkLoop env chunk m attempt remaining lastErr =
        .error "context canceled" := by
  intro remaining
  induction remaining with
  | zero =>
    intro attempt lastErr j h1 h2
    omega
  | succ remaining ih =>
    intro attempt lastErr j h1 h2 hj hcanj hfail
    rw [downloadChunkLoop]
    by_cases hh : attempt = j
    · subst hh
      rw [if_pos ⟨by omega, hcanj⟩]
    · have hlt : attempt < j := by omega
      obtain ⟨hcan, hmsg⟩ := hfail attempt le_rfl hlt
      rw [if_neg ?hc3]
      case hc3 =>
        rintro ⟨hpos, htrue⟩
        rcases hcan with h | h
        · omega
        · rw [h] at htrue
          exact Bool.noConfusion htrue
      have hnext : ∀ a, attempt + 1 ≤ a → a < j →
          (a = 0 ∨ env.cancelDuringDelay a = false) ∧
            attemptFailMsg env chunk a ≠ none :=
        fun a ha hb => hfail a (by omega) hb
      split
      next msg heq =>
        exact ih (attempt + 1) _ j (by omega) (by omega) hj hcanj hnext
      next status body heq =>
        by_cases hst : status ≠ 206 ∧ status ≠ 200
        · rw [if_pos hst]
          exact ih (attempt + 1) _ j (by omega) (by omega) hj hcanj hnext
        · rw [if_neg hst]
          by_cases hlen : (body.length : Int) ≠ chunk.Size
          · rw [if_pos hlen]
            exact ih (attempt + 1) _ j (by omega) (by omega) hj hcanj hnext
          · exfalso
            rw [attemptFailMsg, heq, netFailMsg, if_neg hst, if_neg hlen] at hmsg
            exact hmsg rfl

/-- C5: `DownloadChunk` treats exactly HTTP status 200 or 206 with a body
of exactly `chunk.Size` bytes as success: any returned body comes from an
attempt whose response had status 200 or 206 and the exact length, and a
first-attempt response meeting both conditions is returned as success.
A response failing either condition only feeds the retry loop, never the
success value. -/
theorem DownloadChunk_validates_response (env : ChunkEnv) (chunk : ChunkInfo)
    (options : Option DownloadOptions) :
    (∀ body, DownloadChunk env chunk options = .ok body →
      ∃ attempt status, attempt ≤ effectiveMaxRetries options ∧
        env.net attempt = .resp status body ∧
        (status = 200 ∨ status = 206) ∧ (body.length : Int) = chunk.Size) ∧
    (∀ status body, env.net 0 = .resp status body →
      (status = 200 ∨ status = 206) → (body.length : Int) = chunk.Size →
      DownloadChunk env chunk options = .ok body) := by
  constructor
  · intro body h
    obtain ⟨a, st, h1, h2, h3, h4, h5⟩ :=
      downloadChunkLoop_ok env chunk (effectiveMaxRetries options)
        (effectiveMaxRetries options + 1) 0 none body h
    exact ⟨a, st, by omega, h3, h4, h5⟩
  · intro status body hnet hst hlen
    show downloadChunkLoop env chunk (effectiveMaxRetries options) 0
      (effectiveMaxRetries options + 1) none = .ok body
    rw [downloadChunkLoop, if_neg (by simp)]
    split
    next msg heq =>
      rw [hnet] at heq
      exact NetOutcome.noConfusion heq
    next status' body' heq =>
      rw [hnet] at heq
      injection heq with h1 h2
      subst h1
      subst h2
      rw [if_neg (by omega), if_neg (by omega)]

/-- C5 witness: a first-attempt 206 response with a body of exactly
`chunk.Size = 3` bytes is returned as the chunk's content. -/
theorem DownloadChunk_validates_response_witness :
    DownloadChunk
      { cancelDuringDelay := fun _ => false, net := fun _ => .resp 206 [7, 8, 9] }
      { Start := 0, End := 2, Size := 3 } none = .ok [7, 8, 9] :=
  (DownloadChunk_validates_response
    { cancelDuringDelay := fun _ => false, net := fun _ => .resp 206 [7, 8, 9] }
    { Start := 0, End := 2, Size := 3 } none).2 206 [7, 8, 9]
    rfl (Or.inr rfl) (by decide)

set_option maxRecDepth 10000 in
/-- C6 counterexample: with default options, all four attempts to fetch
the byte range 10–19 fail with status 500; `DownloadChunk` returns the
last observed error wrapped with the attempt count, but the message does
not carry the chunk's byte range — "10-19" is not a substring of it. -/
theorem DownloadChunk_error_lacks_range_tag :
    DownloadChunk env500 { Start := 10, End := 19, Size := 10 } none
      = .error
        "failed to download chunk after 4 attempts: unexpected status code: 500"
      ∧
    ¬ List.IsInfix "10-19".toList
      "failed to download chunk after 4 attempts: unexpected status code: 500".toList := by
  constructor
  · decide
  · decide

/-- C6 (amended): `DownloadChunk` retries up to a configurable maximum
(default 3 extra retries beyond the first try, 4 attempts total), each
retry preceded by an interruptible delay; cancellation during a pending
delay aborts with the context's error; exhausting the budget surfaces
the last observed error wrapped with the total attempt count (the
chunk's byte range is logged per retry and added by the caller
`downloadChunked`, not carried in this returned error). -/
theorem DownloadChunk_retry_policy (env : ChunkEnv) (chunk : ChunkInfo)
    (options : Option DownloadOptions) :
    effectiveMaxRetries none = 3 ∧
    (∀ o, o.MaxRetries > 0 →
      effectiveMaxRetries (some o) = o.MaxRetries.toNat) ∧
    ((∀ a, a ≤ effectiveMaxRetries options →
        (a = 0 ∨ env.cancelDuringDelay a = false) ∧
        attemptFailMsg env chunk a ≠ none) →
      DownloadChunk env chunk options =
        .error ("failed to download chunk after "
          ++ toString (effectiveMaxRetries options + 1) ++ " attempts: "
          ++ (attemptFailMsg env chunk (effectiveMaxRetries options)).getD "")) ∧
    (∀ j, 1 ≤ j → j ≤ effectiveMaxRetries options →
      env.cancelDuringDelay j = true →
      (∀ a, a < j → (a = 0 ∨ env.cancelDuringDelay a = false) ∧
        attemptFailMsg env chunk a ≠ none) →
      DownloadChunk env chunk options = .error "context canceled") := by
  refine ⟨rfl, fun o h => by rw [effectiveMaxRetries, if_pos h], ?_, ?_⟩
  · intro hfail
    have h := downloadChunkLoop_exhaust env chunk (effectiveMaxRetries options)
      (effectiveMaxRetries options) 0 none
      (fun a h1 h2 => hfail a (by omega))
    rw [Nat.zero_add] at h
    exact h
  · intro j h1 h2 hcan hfail
    exact downloadChunkLoop_cancel env chunk (effectiveMaxRetries options)
      (effectiveMaxRetries options + 1) 0 none j (by omega) (by omega) h1 hcan
      (fun a ha hlt => hfail a hlt)

/-- C6 witness: the retry policy applied to the all-500 environment —
four attempts, then the wrapped last error. -/
theorem DownloadChunk_retry_policy_witness :
    DownloadChunk env500 { Start := 10, End := 19, Size := 10 } none
      = .error
        "failed to download chunk after 4 attempts: unexpected status code: 500" := by
  have h := (DownloadChunk_retry_policy env500
    { Start := 10, End := 19, Size := 10 } none).2.2.1
    (fun a _ => ⟨Or.inr rfl,
      show netFailMsg { Start := 10, End := 19, Size := 10 }
        (NetOutcome.resp 500 []) ≠ none by decide⟩)
  rw [h]
  rfl

lemma LoadProgress_valid_iff (dir : ResumeDir) (url : String)
    (r : ResumeData) :
    LoadProgress dir url = .ok (some r) ↔
      dir (getResumeFilename url) = some (.valid r) := by
  constructor
  · intro h
    rw [LoadProgress] at h
    split at h
    next heq =>
      simp at h
    next heq =>
      exact Except.noConfusion h
    next r' heq =>
      injection h with h
      injection h with h
      subst h
      exact heq
  · intro h
    rw [LoadProgress, h]

/-- C7: `SaveProgress(url, r)` followed by `LoadProgress(url)` returns a
record equal to `r`; with no saved record, `LoadProgress` returns absent
(`ok none`), not an error. -/
theorem SaveProgress_LoadProgress_roundtrip (dir : ResumeDir) (url : String)
    (r : ResumeData) :
    LoadProgress (SaveProgress dir url r) url = .ok (some r) ∧
    (dir (getResumeFilename url) = none → LoadProgress dir url = .ok none) := by
  constructor
  · rw [LoadProgress]
    show (match (if getResumeFilename url = getResumeFilename url
        then some (ResumeFileContent.valid r) else dir (getResumeFilename url))
        with
      | none => Except.ok none
      | some .corrupt => Except.error "failed to unmarshal resume data"
      | some (.valid r) => Except.ok (some r)) = Except.ok (some r)
    rw [if_pos rfl]
  · intro h
    rw [LoadProgress, h]

/-- C7 witness: the round-trip evaluated on a concrete record and the
empty directory. -/
theorem SaveProgress_LoadProgress_roundtrip_witness :
    LoadProgress (SaveProgress emptyResumeDir "http://example.com/f" sampleRecord)
      "http://example.com/f" = .ok (some sampleRecord) ∧
    LoadProgress emptyResumeDir "http://example.com/f" = .ok none := by
  have h := SaveProgress_LoadProgress_roundtrip emptyResumeDir
    "http://example.com/f" sampleRecord
  exact ⟨h.1, h.2 rfl⟩

set_option maxRecDepth 10000 in
/-- C3 counterexample: with an unreadable (corrupt) record on disk,
`IsResumable` does not silently report "not resumable" — it surfaces the
unmarshal error to the caller. -/
theorem IsResumable_surfaces_error_counterexample :
    IsResumable corruptDir (fun _ => .absent) "http://example.com/f"
      "/tmp/out.bin" = .error "failed to unmarshal resume data" := by
  decide

/-- C3 (amended): `IsResumable(url, outputPath)` returns true exactly
when a record exists for the url, its stored path equals `outputPath`,
the output file exists, its size equals the recorded `Downloaded` count,
and its modification time is not after the record's timestamp.  A
missing record or any mismatch silently yields "not resumable" with no
error; however an unreadable or corrupt record, and a stat failure other
than non-existence, surface an error to the caller. -/
theorem IsResumable_spec (dir : ResumeDir) (fs : FileSystem)
    (url out : String) :
    (∀ r, IsResumable dir fs url out = .ok (true, some r) ↔
      (dir (getResumeFilename url) = some (.valid r) ∧ r.FilePath = out ∧
        ∃ mtime, fs out = .present r.Downloaded mtime ∧
          mtime ≤ r.LastModified)) ∧
    (dir (getResumeFilename url) = none →
      IsResumable dir fs url out = .ok (false, none)) ∧
    (∀ r, dir (getResumeFilename url) = some (.valid r) →
      (r.FilePath ≠ out ∨ fs out = .absent ∨
        (∃ size mtime, fs out = .present size mtime ∧
          (size ≠ r.Downloaded ∨ mtime > r.LastModified))) →
      IsResumable dir fs url out = .ok (false, none)) ∧
    (dir (getResumeFilename url) = some .corrupt →
      IsResumable dir fs url out = .error "failed to unmarshal resume data") ∧
    (∀ r, dir (getResumeFilename url) = some (.valid r) → r.FilePath = out →
      fs out = .ioError →
      IsResumable dir fs url out = .error "failed to stat output file") := by
  refine ⟨?_, ?_, ?_, ?_, ?_⟩
  · intro r
    constructor
    · intro h
      rw [IsResumable] at h
      split at h
      next e heq => exact Except.noConfusion h
      next heq => simp at h
      next progress heq =>
        split at h
        · simp at h
        next hpath =>
          split at h
          next heq2 => simp at h
          next heq2 => exact Except.noConfusion h
          next size mtime heq2 =>
            split at h
            · simp at h
            next hsize =>
              split at h
              · simp at h
              next hmt =>
                injection h with h
                injection h with h1 h2
                injection h2 with h2
                subst h2
                refine ⟨(LoadProgress_valid_iff dir url _).mp heq,
                  not_ne_iff.mp hpath, mtime, ?_, by omega⟩
                rw [heq2]
                congr 1
                omega
    · rintro ⟨hdir, hpath, mtime, hstat, hmt⟩
      rw [IsResumable, (LoadProgress_valid_iff dir url r).mpr hdir]
      show (if r.FilePath ≠ out then Except.ok (false, none)
        else match fs out with
          | .absent => Except.ok (false, none)
          | .ioError => Except.error "failed to stat output file"
          | .present size modTime =>
            if size ≠ r.Downloaded then Except.ok (false, none)
            else if modTime > r.LastModified then Except.ok (false, none)
            else Except.ok (true, some r)) = Except.ok (true, some r)
      rw [if_neg (not_ne_iff.mpr hpath), hstat]
      show (if r.Downloaded ≠ r.Downloaded then Except.ok (false, none)
        else if mtime > r.LastModified then Except.ok (false, none)
        else Except.ok (true, some r)) = Except.ok (true, some r)
      rw [if_neg (not_ne_iff.mpr rfl), if_neg (not_lt.mpr hmt)]
  · intro h
    rw [IsResumable, LoadProgress, h]
  · intro r hdir hcase
    rw [IsResumable, (LoadProgress_valid_iff dir url r).mpr hdir]
    show (if r.FilePath ≠ out then Except.ok (false, none)
      else match fs out with
        | .absent => Except.ok (false, none)
        | .ioError => Except.error "failed to stat output file"
        | .present size modTime =>
          if size ≠ r.Downloaded then Except.ok (false, none)
          else if modTime > r.LastModified then Except.ok (false, none)
          else Except.ok (true, some r)) = Except.ok (false, none)
    by_cases hp : r.FilePath ≠ out
    · rw [if_pos hp]
    · rw [if_neg hp]
      rcases hcase with hpath | habs | ⟨size, mtime, hstat, hmm⟩
      · exact absurd hpath hp
      · rw [habs]
      · rw [hstat]
        show (if size ≠ r.Downloaded then Except.ok (false, none)
          else if mtime > r.LastModified then Except.ok (false, none)
          else Except.ok (true, some r)) = Except.ok (false, none)
        by_cases hs : size ≠ r.Downloaded
        · rw [if_pos hs]
        · rw [if_neg hs]
          rcases hmm with h | h
          · exact absurd h hs
          · rw [if_pos h]
  · intro h
    rw [IsResumable, LoadProgress, h]
  · intro r hdir hpath hstat
    rw [IsResumable, (LoadProgress_valid_iff dir url r).mpr hdir]
    show (if r.FilePath ≠ out then Except.ok (false, none)
      else match fs out with
        | .absent => Except.ok (false, none)
        | .ioError => Except.error "failed to stat output file"
        | .present size modTime =>
          if size ≠ r.Downloaded then Except.ok (false, none)
          else if modTime > r.LastModified then Except.ok (false, none)
          else Except.ok (true, some r)) = Except.error "failed to stat output file"
    rw [if_neg (not_ne_iff.mpr hpath), hstat]

set_option maxRecDepth 10000 in
/-- C3 witness: a matching record, path, size, and a modification time
not after the record's timestamp make `IsResumable` return true. -/
theorem IsResumable_spec_witness :
    IsResumable goodDir goodFs "http://example.com/f" "/tmp/out.bin"
      = .ok (true, some sampleRecord) :=
  ((IsResumable_spec goodDir goodFs "http://example.com/f"
      "/tmp/out.bin").1 sampleRecord).mpr
    ⟨by decide, rfl, 100, by decide, by decide⟩

lemma ManagerDownload_no_shortcircuit (opts : ManagerOptions)
    (req : DownloadRequest) (out : String) (env : DlEnv)
    (h : ¬(opts.Resume ∧ (checkExistingFile env.statBefore env.probedSize).2)) :
    (ManagerDownload opts req out env).transferAttempted = true := by
  rw [ManagerDownload, if_neg h]
  split
  · rfl
  next finalSize heq =>
    rw [afterTransferStage]
    split
    · rfl
    · rw [verifyStage]
      split
      · split
        next e heq2 => rfl
        next ch heq2 =>
          split
          · rfl
          · rfl
      · rfl

/-- C4 counterexample: with the `Resume` option disabled, a pre-existing
output file whose size equals the probed size does not short-circuit:
`Download` performs the network transfer and reports the measured
(non-zero) speed. -/
theorem download_shortcircuit_counterexample :
    (ManagerDownload optsNoResume reqPlain "/tmp/out.bin" envExisting).transferAttempted
      = true ∧
    (ManagerDownload optsNoResume reqPlain "/tmp/out.bin" envExisting).result =
      .ok { FilePath := "/tmp/out.bin", Size := 100, Speed := 5, Hash := "",
            Resumed := false, ChunksUsed := 0 } := by
  constructor
  · rfl
  · rfl

/-- C4 (amended): when the `Resume` option is enabled (as in the default
configuration), a pre-existing output file whose size equals the probed
size makes `Download` return a completed result immediately — `Speed = 0`,
`Resumed = false`, no transfer attempted, nothing deleted; a file whose
size differs from the probed size does not trigger the short-circuit and
the transfer runs. -/
theorem download_shortcircuit_spec (opts : ManagerOptions)
    (req : DownloadRequest) (out : String) (env : DlEnv) :
    (opts.Resume = true → env.statBefore = some env.probedSize →
      ManagerDownload opts req out env =
        { transferAttempted := false, partialDeleted := false,
          result := .ok
            { FilePath := out, Size := env.probedSize, Speed := 0,
              Hash := "", Resumed := false, ChunksUsed := 0 } }) ∧
    (∀ s, env.statBefore = some s → s ≠ env.probedSize →
      (ManagerDownload opts req out env).transferAttempted = true) := by
  constructor
  · intro hr hstat
    have hchk : checkExistingFile env.statBefore env.probedSize
        = (env.probedSize, true) := by
      rw [hstat, checkExistingFile]
      rw [if_pos rfl]
    rw [ManagerDownload, if_pos (by rw [hchk]; exact ⟨by rw [hr], rfl⟩), hchk]
  · intro s hstat hneq
    refine ManagerDownload_no_shortcircuit opts req out env ?_
    rintro ⟨-, hchk⟩
    rw [hstat, checkExistingFile, if_neg hneq] at hchk
    exact Bool.noConfusion hchk

/-- C4 witness: the short-circuit evaluated with the default options on
a file of exactly the probed size, and the no-short-circuit behaviour on
a size mismatch. -/
theorem download_shortcircuit_spec_witness :
    ManagerDownload defaultOptions reqPlain "/tmp/out.bin" envExisting =
      { transferAttempted := false, partialDeleted := false,
        result := .ok
          { FilePath := "/tmp/out.bin", Size := 100, Speed := 0,
            Hash := "", Resumed := false, ChunksUsed := 0 } } ∧
    (ManagerDownload defaultOptions reqPlain "/tmp/out.bin"
      { envExisting with statBefore := some 47 }).transferAttempted = true := by
  have h := download_shortcircuit_spec defaultOptions reqPlain "/tmp/out.bin"
    envExisting
  refine ⟨h.1 rfl rfl, ?_⟩
  have h2 := download_shortcircuit_spec defaultOptions reqPlain "/tmp/out.bin"
    { envExisting with statBefore := some 47 }
  exact h2.2 47 rfl (by decide)

/-- C8: when hash verification is requested (`options.VerifyHash` set
and an expected hash supplied in the request) and the transfer passes
the size guard, the engine compares the computed hash case-insensitively
(`strings.EqualFold`) with the expected value: on match the returned
result's `Hash` equals the computed hash; on mismatch `Download` returns
the hash-verification error, no success result, and the downloaded file
is retained (not deleted). -/
theorem download_hash_verification (opts : ManagerOptions)
    (req : DownloadRequest) (out : String) (env : DlEnv) (h : String)
    (hv : opts.VerifyHash = true) (hreq : req.VerifyHash ≠ "")
    (hnoshort : ¬(opts.Resume ∧
      (checkExistingFile env.statBefore env.probedSize).2))
    (htr : env.transfer = .ok env.probedSize)
    (hhash : env.computedHash = .ok h) :
    (eqFold h req.VerifyHash = true →
      (ManagerDownload opts req out env).result =
        .ok { FilePath := out, Size := env.probedSize,
              Speed := env.measuredSpeed, Hash := h, Resumed := false,
              ChunksUsed := 0 }) ∧
    (eqFold h req.VerifyHash = false →
      (ManagerDownload opts req out env).result =
        .error ("hash verification failed: expected " ++ req.VerifyHash
          ++ ", got " ++ h) ∧
      (ManagerDownload opts req out env).partialDeleted = false) := by
  have hbase : ManagerDownload opts req out env
      = verifyStage opts req out env := by
    rw [ManagerDownload, if_neg hnoshort]
    split
    next e heq =>
      rw [htr] at heq
      exact Except.noConfusion heq
    next fs heq =>
      rw [htr] at heq
      injection heq with heq
      subst heq
      rw [afterTransferStage, if_neg (not_ne_iff.mpr rfl)]
  rw [hbase, verifyStage, if_pos ⟨by rw [hv], hreq⟩]
  constructor
  · intro hfold
    split
    next e heq2 =>
      rw [hhash] at heq2
      exact Except.noConfusion heq2
    next ch heq2 =>
      rw [hhash] at heq2
      injection heq2 with heq2
      subst heq2
      rw [if_pos hfold]
  · intro hfold
    split
    next e heq2 =>
      rw [hhash] at heq2
      exact Except.noConfusion heq2
    next ch heq2 =>
      rw [hhash] at heq2
      injection heq2 with heq2
      subst heq2
      rw [if_neg (by rw [hfold]; exact Bool.noConfusion)]
      exact ⟨rfl, rfl⟩

/-- C8 witness: a case-insensitive match returns the computed hash in
the result; a wrong expected value yields the hash-verification error
with the file retained. -/
theorem download_hash_verification_witness :
    (ManagerDownload optsVerify reqHash "/tmp/out.bin" envHash).result =
      .ok { FilePath := "/tmp/out.bin", Size := 100, Speed := 5,
            Hash := "ABCdef", Resumed := false, ChunksUsed := 0 } ∧
    (ManagerDownload optsVerify { reqPlain with VerifyHash := "beef" }
        "/tmp/out.bin" envHash).result =
      .error "hash verification failed: expected beef, got ABCdef" ∧
    (ManagerDownload optsVerify { reqPlain with VerifyHash := "beef" }
        "/tmp/out.bin" envHash).partialDeleted = false := by
  refine ⟨?_, ?_, ?_⟩
  · exact (download_hash_verification optsVerify reqHash "/tmp/out.bin"
      envHash "ABCdef" rfl (by decide) (by decide) rfl rfl).1 (by decide)
  · have h := (download_hash_verification optsVerify
      { reqPlain with VerifyHash := "beef" } "/tmp/out.bin" envHash
      "ABCdef" rfl (by decide) (by decide) rfl rfl).2 (by decide)
    exact h.1.trans (by decide)
  · have h := (download_hash_verification optsVerify
      { reqPlain with VerifyHash := "beef" } "/tmp/out.bin" envHash
      "ABCdef" rfl (by decide) (by decide) rfl rfl).2 (by decide)
    exact h.2

/-- C9: after the transfer, the on-disk size must equal the probed size
exactly; any deviation makes `Download` return the size-mismatch failure
(no success result), even though the transfer itself reported success. -/
theorem download_size_mismatch (opts : ManagerOptions)
    (req : DownloadRequest) (out : String) (env : DlEnv) (finalSize : Int)
    (hnoshort : ¬(opts.Resume ∧
      (checkExistingFile env.statBefore env.probedSize).2))
    (htr : env.transfer = .ok finalSize)
    (hneq : finalSize ≠ env.probedSize) :
    (ManagerDownload opts req out env).result =
      .error ("file size mismatch: expected " ++ toString env.probedSize
        ++ ", got " ++ toString finalSize) := by
  rw [ManagerDownload, if_neg hnoshort]
  split
  next e heq =>
    rw [htr] at heq
    exact Except.noConfusion heq
  next fs heq =>
    rw [htr] at heq
    injection heq with heq
    subst heq
    rw [afterTransferStage, if_pos hneq]

/-- C9 witness: a 97-byte file against a probed size of 100 fails with
the size-mismatch error. -/
theorem download_size_mismatch_witness :
    (ManagerDownload defaultOptions reqPlain "/tmp/out.bin" envShort).result =
      .error "file size mismatch: expected 100, got 97" := by
  have h := download_size_mismatch defaultOptions reqPlain "/tmp/out.bin"
    envShort 97 (by decide) rfl (by decide)
  exact h.trans (by decide)

/-- C10: `Manager.Resume` behaves identically to `Manager.Download` — it
performs a full fresh download, consulting no saved resume state — and
every successful result of either operation has `Resumed = false` and
`ChunksUsed = 0`. -/
theorem resume_equals_download (opts : ManagerOptions)
    (req : DownloadRequest) (out : String) (env : DlEnv) :
    ManagerResume opts req out env = ManagerDownload opts req out env ∧
    (∀ r, (ManagerDownload opts req out env).result = .ok r →
      r.Resumed = false ∧ r.ChunksUsed = 0) := by
  refine ⟨rfl, fun r h => ?_⟩
  rw [ManagerDownload] at h
  split at h
  · injection h with h
    subst h
    exact ⟨rfl, rfl⟩
  · split at h
    next e heq => exact Except.noConfusion h
    next fs heq =>
      rw [afterTransferStage] at h
      split at h
      · exact Except.noConfusion h
      · rw [verifyStage] at h
        split at h
        · split at h
          next e2 heq2 => exact Except.noConfusion h
          next ch heq2 =>
            split at h
            · injection h with h
              subst h
              exact ⟨rfl, rfl⟩
            · exact Except.noConfusion h
        · injection h with h
          subst h
          exact ⟨rfl, rfl⟩

/-- C10 witness: `Resume` and `Download` coincide on a concrete run, and
the returned result carries `Resumed = false`, `ChunksUsed = 0`. -/
theorem resume_equals_download_witness :
    ManagerResume defaultOptions reqPlain "/tmp/out.bin" envExisting
      = ManagerDownload defaultOptions reqPlain "/tmp/out.bin" envExisting ∧
    ({ FilePath := "/tmp/out.bin", Size := 100, Speed := 0, Hash := "",
       Resumed := false, ChunksUsed := 0 } : DownloadResult).Resumed = false ∧
    ({ FilePath := "/tmp/out.bin", Size := 100, Speed := 0, Hash := "",
       Resumed := false, ChunksUsed := 0 } : DownloadResult).ChunksUsed = 0 := by
  have h := resume_equals_download defaultOptions reqPlain "/tmp/out.bin"
    envExisting
  have h2 := h.2
    { FilePath := "/tmp/out.bin", Size := 100, Speed := 0, Hash := "",
      Resumed := false, ChunksUsed := 0 } rfl
  exact ⟨h.1, h2.1, h2.2⟩

end Cloudget
